import Mathlib

/-!
# Shallow embedding of the `vcf-filter` core

This file embeds the core of the `vcf-filter` Rust library in Lean 4 and
proves properties of the embedding.  The embedded components are:

* `src/value.rs`   — the `Value` sum type and its coercion helpers;
* `src/header.rs`  — the header metadata resolver (`parse_header` and friends);
* `src/filter.rs`  — the expression AST and the expression parser;
* `src/row.rs`     — the row decoder (`parse_row` and friends);
* `src/eval.rs`    — the expression evaluator;
* `src/lib.rs`     — the `FilterEngine` facade.

Modelling conventions:

* Rust `f64` is modelled as `ℚ` (exact rationals).  Decimal text parses to the
  exact rational it denotes; IEEE rounding, `inf` and `NaN` spellings are not
  modelled.  No theorem in this file depends on floating-point rounding.
* Rust `HashMap` is modelled as an association list where an insert prepends
  and a lookup returns the most recently inserted binding, which matches the
  observable insert/overwrite/lookup behaviour of `HashMap`.
* Rust `u64`/`i64`/`usize` parsing is modelled on `Nat`/`Int` with the exact
  range checks performed by Rust's `parse`.
-/

/-- The single-quote character, used by the header subfield-hint scanner. -/
def squote : Char := Char.ofNat 39

/-- Lookup in an association list: first (most recently inserted) match wins. -/
def lookupFirst {α : Type} : List (String × α) → String → Option α
  | [], _ => none
  | (k', v) :: rest, k => if k' = k then some v else lookupFirst rest k

/-- Split a character list on a separator character.  Mirrors Rust's
`str::split(c)`: the result always has at least one (possibly empty) piece. -/
def splitCh (c : Char) : List Char → List (List Char)
  | [] => [[]]
  | x :: xs =>
    let r := splitCh c xs
    if x = c then [] :: r
    else
      match r with
      | y :: ys => (x :: y) :: ys
      | [] => [[x]]

/-- Split a string on a separator character (Rust `str::split(c)`). -/
def splitStr (c : Char) (s : String) : List String :=
  (splitCh c s.toList).map String.mk

/-- Rust `str::split_once(c)`: the text before and after the first separator. -/
def splitOnceStr (c : Char) (s : String) : Option (String × String) :=
  let l := s.toList
  let before := l.takeWhile (· ≠ c)
  if before.length = l.length then none
  else some (String.mk before, String.mk (l.drop (before.length + 1)))

/-- Rust `str::trim` on a character list (whitespace from both ends). -/
def trimChars (l : List Char) : List Char :=
  ((l.dropWhile Char.isWhitespace).reverse.dropWhile Char.isWhitespace).reverse

/-- Rust `str::trim` on a string. -/
def trimStr (s : String) : String := String.mk (trimChars s.toList)

/-- Numeric value of a list of ASCII digits. -/
def digitsToNat (l : List Char) : Nat :=
  l.foldl (fun a c => a * 10 + (c.toNat - 48)) 0

/-- Rust `str::parse::<u64>()`: optional `+` sign, one or more ASCII digits,
value within the `u64` range. -/
def parseU64 (s : String) : Option Nat :=
  let l := s.toList
  let l := match l with
    | '+' :: rest => rest
    | l => l
  if l ≠ [] ∧ l.all Char.isDigit then
    let n := digitsToNat l
    if n < 2 ^ 64 then some n else none
  else none

/-- Rust `str::parse::<i64>()`: optional sign, one or more ASCII digits,
value within the `i64` range. -/
def parseI64 (s : String) : Option Int :=
  let l := s.toList
  let (neg, l) : Bool × List Char := match l with
    | '+' :: rest => (false, rest)
    | '-' :: rest => (true, rest)
    | l => (false, l)
  if l ≠ [] ∧ l.all Char.isDigit then
    let n : Int := digitsToNat l
    let v : Int := if neg then -n else n
    if -(2 ^ 63) ≤ v ∧ v < 2 ^ 63 then some v else none
  else none

/-- Rust `str::parse::<f64>()` restricted to finite decimal/exponent forms,
read as the exact rational the text denotes.  (The `inf`/`NaN` spellings and
IEEE rounding are not modelled; no theorem here depends on them.) -/
def parseF64 (s : String) : Option ℚ :=
  let l := s.toList
  let (sign, l) : ℚ × List Char := match l with
    | '+' :: rest => (1, rest)
    | '-' :: rest => (-1, rest)
    | l => (1, l)
  let ip := l.takeWhile Char.isDigit
  let l₁ := l.drop ip.length
  let (fp, l₂) : List Char × List Char := match l₁ with
    | '.' :: rest => (rest.takeWhile Char.isDigit, rest.drop (rest.takeWhile Char.isDigit).length)
    | l₁ => ([], l₁)
  if ip = [] ∧ fp = [] then none
  else
    let mant : ℚ := (digitsToNat ip : ℚ) + (digitsToNat fp : ℚ) / (10 : ℚ) ^ fp.length
    match l₂ with
    | [] => some (sign * mant)
    | 'e' :: rest | 'E' :: rest =>
      let (esign, rest) : Int × List Char := match rest with
        | '+' :: r => (1, r)
        | '-' :: r => (-1, r)
        | rest => (1, rest)
      let ed := rest.takeWhile Char.isDigit
      if ed ≠ [] ∧ rest.drop ed.length = [] then
        some (sign * mant * (10 : ℚ) ^ (esign * (digitsToNat ed : Int)))
      else none
    | _ => none

/-! ## `src/value.rs` — the `Value` sum type -/

/-- `Value` from `src/value.rs`.  `number` carries the `f64` payload, modelled
as an exact rational. -/
inductive Value : Type where
  | string : String → Value
  | number : ℚ → Value
  | bool : Bool → Value
  | array : List Value → Value
  | missing : Value

/-- `VcfFilterError` from `src/error.rs`.  Error payloads are the formatted
message text (or, for `typeMismatch`, the two operand type names). -/
inductive VcfFilterError : Type where
  | headerParseError : String → VcfFilterError
  | rowParseError : String → VcfFilterError
  | filterParseError : String → VcfFilterError
  | evaluationError : String → VcfFilterError
  | unknownField : String → VcfFilterError
  | typeMismatch : String → String → VcfFilterError
  deriving DecidableEq, Repr

/-- `Value::is_missing`. -/
def Value.is_missing : Value → Bool
  | .missing => true
  | _ => false

/-- `Value::as_bool`: only `Bool` and `Missing` convert; everything else is
`None`. -/
def Value.as_bool : Value → Option Bool
  | .bool b => some b
  | .missing => some false
  | _ => none

/-- `Value::as_number`: numbers convert as themselves, strings through
`f64` parsing, everything else is `None`. -/
def Value.as_number : Value → Option ℚ
  | .number n => some n
  | .string s => parseF64 s
  | _ => none

/-- `Value::type_name`. -/
def Value.type_name : Value → String
  | .string _ => "string"
  | .number _ => "number"
  | .bool _ => "bool"
  | .array _ => "array"
  | .missing => "missing"

/-- `f64::EPSILON`, the tolerance used by `values_equal`. -/
def f64Epsilon : ℚ := 1 / 2 ^ 52

/-! ## `src/header.rs` — header metadata resolver -/

/-- `InfoNumber` from `src/header.rs`. -/
inductive InfoNumber : Type where
  | count : Nat → InfoNumber
  | perAltAllele : InfoNumber
  | perGenotype : InfoNumber
  | perAllele : InfoNumber
  | variable : InfoNumber
  | flag : InfoNumber
  deriving DecidableEq, Repr

/-- `InfoType` from `src/header.rs`. -/
inductive InfoType : Type where
  | integer : InfoType
  | float : InfoType
  | flag : InfoType
  | character : InfoType
  | string : InfoType
  deriving DecidableEq, Repr

/-- `InfoField` from `src/header.rs`. -/
structure InfoField : Type where
  id : String
  number : InfoNumber
  field_type : InfoType
  description : String
  subfields : Option (List String)
  deriving DecidableEq, Repr

/-- `InfoMap`: field id → metadata, as an association list (see the note on
`HashMap` modelling at the top of the file). -/
def InfoMap : Type := List (String × InfoField)

/-- `parse_number` from `src/header.rs`: the `Number` attribute fallback
table. -/
def parse_number (s : String) : InfoNumber :=
  if s = "A" then .perAltAllele
  else if s = "G" then .perGenotype
  else if s = "R" then .perAllele
  else if s = "." then .variable
  else if s = "0" then .flag
  else .count ((parseU64 s).getD 1)

/-- `parse_type` from `src/header.rs`. -/
def parse_type (s : String) : InfoType :=
  if s = "Integer" then .integer
  else if s = "Float" then .float
  else if s = "Flag" then .flag
  else if s = "Character" then .character
  else .string

/-- One step of the `parse_info_attrs` loop: consume `key=` and the value
(quoted or unquoted), returning key, value and the remaining text. -/
def attrStep (l : List Char) (eqPos : Nat) : String × String × List Char :=
  let key := String.mk (trimChars (l.take eqPos))
  let rest := l.drop (eqPos + 1)
  match rest with
  | '"' :: rest₁ =>
    let endQuote := ((rest₁.findIdx? (· = '"')).getD rest₁.length)
    let val := String.mk (rest₁.take endQuote)
    let rest₂ := rest₁.drop (min (endQuote + 1) rest₁.length)
    let rest₃ := match rest₂ with
      | ',' :: r => r
      | r => r
    (key, val, rest₃)
  | _ =>
    let commaPos := ((rest.findIdx? (· = ',')).getD rest.length)
    let val := String.mk (rest.take commaPos)
    let rest' := if commaPos < rest.length then rest.drop (commaPos + 1) else []
    (key, val, rest')

/-- The `parse_info_attrs` loop from `src/header.rs`, with a fuel parameter
for termination (each iteration consumes at least the `=` character, so fuel
equal to the input length is always sufficient). -/
def parse_info_attrs_go : Nat → List Char → List (String × String) → List (String × String)
  | 0, _, attrs => attrs
  | fuel + 1, l, attrs =>
    if l = [] then attrs
    else
      match l.findIdx? (· = '=') with
      | none => attrs
      | some eqPos =>
        let (key, val, rest) := attrStep l eqPos
        parse_info_attrs_go fuel rest ((key, val) :: attrs)

/-- `parse_info_attrs` from `src/header.rs`: the `key=value` attribute list
inside the `##INFO=<...>` angle brackets. -/
def parse_info_attrs (content : String) : List (String × String) :=
  parse_info_attrs_go (content.toList.length + 1) content.toList []

/-- The first single-quote-delimited span of a character list, as used by
`extract_subfields` (`description.find` of a quote, then the next quote). -/
def firstQuotedSpan (l : List Char) : Option (List Char) :=
  match l.dropWhile (· ≠ squote) with
  | [] => none
  | _ :: rest =>
    let inner := rest.takeWhile (· ≠ squote)
    if inner.length = rest.length then none else some inner

/-- Segment normalization from `extract_subfields`: trim, then replace each
space, dot and slash with an underscore. -/
def normalizeSeg (l : List Char) : String :=
  String.mk ((trimChars l).map (fun c => if c = ' ' ∨ c = '.' ∨ c = '/' then '_' else c))

/-- `extract_subfields` from `src/header.rs`: the quoted pipe-delimited
hint in a `Description`, kept only when at least two non-empty normalized
segments remain. -/
def extract_subfields (description : String) : Option (List String) :=
  match firstQuotedSpan description.toList with
  | none => none
  | some format_str =>
    if ¬ format_str.contains '|' then none
    else
      let subfields := ((splitCh '|' format_str).map normalizeSeg).filter (· ≠ "")
      if 2 ≤ subfields.length then some subfields else none

/-- `parse_info_line` from `src/header.rs`: parse one `##INFO=<...>` line
into an `InfoField` (`None` when the line does not have the declaration shape
or lacks a required attribute). -/
def parse_info_line (line : String) : Option InfoField :=
  let marker := "##INFO=<".toList
  let l := line.toList
  if marker.isPrefixOf l then
    let body := l.drop marker.length
    match body.getLast? with
    | some '>' =>
      let attrs := parse_info_attrs (String.mk body.dropLast)
      match lookupFirst attrs "ID", lookupFirst attrs "Number", lookupFirst attrs "Type" with
      | some id, some number_str, some type_str =>
        let description := (lookupFirst attrs "Description").getD ""
        some { id := id
               number := parse_number number_str
               field_type := parse_type type_str
               description := description
               subfields := extract_subfields description }
      | _, _, _ => none
    | _ => none
  else none

/-- `parse_header` from `src/header.rs`: scan every line, keep the ones that
parse as `##INFO` declarations.  (Rust's `str::lines` is modelled as a split
on the newline character; the per-line `trim` removes any `\r`.) -/
def parse_header (header : String) : Except VcfFilterError InfoMap :=
  .ok ((splitStr '\n' header).foldl
    (fun m line =>
      let line := trimStr line
      if "##INFO=<".toList.isPrefixOf line.toList then
        match parse_info_line line with
        | some field => (field.id, field) :: m
        | none => m
      else m)
    ([] : List (String × InfoField)))

/-! ## `src/filter.rs` — expression AST and parser -/

/-- `BinaryOp` from `src/filter.rs`. -/
inductive BinaryOp : Type where
  | eq | notEq | lt | gt | ltEq | gtEq | contains | and | or
  deriving DecidableEq, Repr

/-- `UnaryOp` from `src/filter.rs`. -/
inductive UnaryOp : Type where
  | not
  deriving DecidableEq, Repr

/-- `AccessPart` from `src/filter.rs`. -/
inductive AccessPart : Type where
  | field : String → AccessPart
  | index : Nat → AccessPart
  | wildcard : AccessPart
  deriving DecidableEq, Repr

/-- `Expr` from `src/filter.rs`.  (`Exists` is rendered `existsPath`.) -/
inductive Expr : Type where
  | number : ℚ → Expr
  | string : String → Expr
  | bool : Bool → Expr
  | var : List AccessPart → Expr
  | binary : Expr → BinaryOp → Expr → Expr
  | unary : UnaryOp → Expr → Expr
  | existsPath : List AccessPart → Expr

/-- Deterministic character-stream parsers: a parse result is the value and
the remaining input.  This models the chumsky combinator pipeline of
`src/filter.rs`; `Option` stands in for chumsky's error type (no theorem here
depends on error contents), and alternatives backtrack exactly as chumsky's
`or`/`choice` do. -/
def PComb (α : Type) : Type := List Char → Option (α × List Char)

/-- Skip leading whitespace (the halves of chumsky's `padded()`). -/
def skipWs (l : List Char) : List Char := l.dropWhile Char.isWhitespace

/-- chumsky `padded()`: ignore whitespace before and after the pattern. -/
def pPadded {α : Type} (p : PComb α) : PComb α := fun l =>
  match p (skipWs l) with
  | some (a, rest) => some (a, skipWs rest)
  | none => none

/-- chumsky `just(c)`. -/
def pChar (c : Char) : PComb Unit := fun l =>
  match l with
  | x :: xs => if x = c then some ((), xs) else none
  | [] => none

/-- chumsky `a.or(b)`: try `a`, backtrack and try `b` on failure. -/
def pOrElse {α : Type} (p q : PComb α) : PComb α := fun l =>
  match p l with
  | some r => some r
  | none => q l

/-- chumsky `text::digits(10)`: one or more ASCII digits. -/
def pDigits : PComb (List Char) := fun l =>
  let d := l.takeWhile Char.isDigit
  if d = [] then none else some (d, l.drop d.length)

/-- chumsky `text::int(10)`: `0`, or a nonzero digit followed by digits
(no leading zeros). -/
def pInt : PComb (List Char) := fun l =>
  match l with
  | c :: rest =>
    if c = '0' then some (['0'], rest)
    else if c.isDigit then
      let d := rest.takeWhile Char.isDigit
      some (c :: d, rest.drop d.length)
    else none
  | [] => none

/-- The number literal of the grammar: an integer with an optional
`.`-digits fraction, evaluated exactly (see the `f64`-as-`ℚ` note). -/
def pNumber : PComb Expr := pPadded (fun l =>
  match pInt l with
  | none => none
  | some (ip, r₁) =>
    match r₁ with
    | '.' :: r₂ =>
      match pDigits r₂ with
      | some (fp, r₃) =>
        some (.number ((digitsToNat ip : ℚ) + (digitsToNat fp : ℚ) / (10 : ℚ) ^ fp.length), r₃)
      | none => some (.number (digitsToNat ip : ℚ), r₁)
    | _ => some (.number (digitsToNat ip : ℚ), r₁))

/-- The string literal: double quotes around any run of non-quote characters,
no escape processing. -/
def pStringLit : PComb Expr := pPadded (fun l =>
  match l with
  | '"' :: rest =>
    let content := rest.takeWhile (· ≠ '"')
    match rest.drop content.length with
    | '"' :: r₂ => some (.string (String.mk content), r₂)
    | _ => none
  | _ => none)

/-- chumsky `text::ident()`: a C-style identifier. -/
def pIdentifier : PComb String := fun l =>
  match l with
  | c :: rest =>
    if c.isAlpha ∨ c = '_' then
      let t := rest.takeWhile (fun d => d.isAlphanum ∨ d = '_')
      some (String.mk (c :: t), rest.drop t.length)
    else none
  | [] => none

/-- chumsky `text::keyword(kw)`: an identifier that is exactly `kw`. -/
def pKeyword (kw : String) : PComb Unit := fun l =>
  match pIdentifier l with
  | some (s, rest) => if s = kw then some ((), rest) else none
  | none => none

/-- The boolean literal: the keywords `true` / `false`. -/
def pBoolLit : PComb Expr :=
  pPadded (pOrElse
    (fun l => (pKeyword "true" l).map (fun r => (.bool true, r.2)))
    (fun l => (pKeyword "false" l).map (fun r => (.bool false, r.2))))

/-- The `[digits]` / `[*]` access part.  (Rust parses the digits with
`usize::parse().unwrap()`; the unmodelled panic on a > 2^64 literal aside,
this is `digitsToNat`.) -/
def pArrayIndex : PComb AccessPart := fun l =>
  match pChar '[' l with
  | none => none
  | some (_, r₁) =>
    match r₁ with
    | '*' :: r₂ => (pChar ']' r₂).map (fun r => (.wildcard, r.2))
    | _ =>
      match pInt r₁ with
      | none => none
      | some (d, r₂) => (pChar ']' r₂).map (fun r => (.index (digitsToNat d), r.2))

/-- The `.identifier` access part. -/
def pFieldAccess : PComb AccessPart := fun l =>
  match pChar '.' l with
  | none => none
  | some (_, r₁) =>
    match pPadded pIdentifier r₁ with
    | none => none
    | some (s, r₂) => some (.field s, r₂)

/-- chumsky `repeated()`, bounded by fuel.  Every repeated pattern in the
grammar consumes at least one character, so fuel equal to the input length is
always sufficient. -/
def pMany {α : Type} (p : PComb α) : Nat → PComb (List α)
  | 0 => fun l => some ([], l)
  | fuel + 1 => fun l =>
    match p l with
    | none => some ([], l)
    | some (a, rest) =>
      match pMany p fuel rest with
      | some (as_, r₂) => some (a :: as_, r₂)
      | none => some ([a], rest)

/-- The access-part chain of a path: `(array_index | field_access)*`. -/
def pAccessChain (fuel : Nat) : PComb (List AccessPart) :=
  pMany (pOrElse pArrayIndex pFieldAccess) fuel

/-- The `variable` production: identifier plus access chain. -/
def pVariable (fuel : Nat) : PComb Expr := pPadded (fun l =>
  match pPadded pIdentifier l with
  | none => none
  | some (name, r₁) =>
    match pAccessChain fuel r₁ with
    | some (parts, r₂) => some (.var (.field name :: parts), r₂)
    | none => some (.var [.field name], r₁))

/-- The `exists(path)` production. -/
def pExistsFn (fuel : Nat) : PComb Expr := fun l =>
  match pPadded (pKeyword "exists") l with
  | none => none
  | some (_, r₁) =>
    match pPadded (pChar '(') r₁ with
    | none => none
    | some (_, r₂) =>
      match pPadded pIdentifier r₂ with
      | none => none
      | some (name, r₃) =>
        match pAccessChain fuel r₃ with
        | none => none
        | some (parts, r₄) =>
          match pPadded (pChar ')') r₄ with
          | none => none
          | some (_, r₅) => some (.existsPath (.field name :: parts), r₅)

/-- The parenthesized production, over the full-expression parser `rec`. -/
def pParen (rec : PComb Expr) : PComb Expr := fun l =>
  match pPadded (pChar '(') l with
  | none => none
  | some (_, r₁) =>
    match rec r₁ with
    | none => none
    | some (e, r₂) =>
      match pPadded (pChar ')') r₂ with
      | none => none
      | some (_, r₃) => some (e, r₃)

/-- `atom`, in the source's `choice` order: exists-call, boolean, number,
string, parenthesized expression, variable. -/
def pAtom (fuel : Nat) (rec : PComb Expr) : PComb Expr :=
  pOrElse (pExistsFn fuel)
    (pOrElse pBoolLit
      (pOrElse pNumber
        (pOrElse pStringLit
          (pOrElse (pParen rec) (pVariable fuel)))))

/-- `unary`: `!`* atom, folding right into nested `Not` nodes. -/
def pUnary (fuel : Nat) (rec : PComb Expr) : PComb Expr := fun l =>
  match pMany (pPadded (pChar '!')) fuel l with
  | none => none
  | some (bangs, r₁) =>
    match pAtom fuel rec r₁ with
    | none => none
    | some (a, r₂) => some (bangs.foldl (fun e _ => Expr.unary .not e) a, r₂)

/-- The comparison operator tokens, in the source's `choice` order
(`==`, `!=`, `<=`, `>=`, `<`, `>`, `contains`). -/
def pCmpOp : PComb BinaryOp := pPadded (fun l =>
  match l with
  | '=' :: '=' :: r => some (.eq, r)
  | '!' :: '=' :: r => some (.notEq, r)
  | '<' :: '=' :: r => some (.ltEq, r)
  | '>' :: '=' :: r => some (.gtEq, r)
  | '<' :: r => some (.lt, r)
  | '>' :: r => some (.gt, r)
  | _ => (pKeyword "contains" l).map (fun r => (.contains, r.2)))

/-- Left-fold a head expression with `(op, rhs)` pairs into nested binaries
(chumsky's `foldl`). -/
def foldBinary (first : Expr) (pairs : List (BinaryOp × Expr)) : Expr :=
  pairs.foldl (fun acc p => Expr.binary acc p.1 p.2) first

/-- A `(op, operand)*` tail at one precedence level. -/
def pOpTail (pOp : PComb BinaryOp) (pOperand : PComb Expr) (fuel : Nat) :
    PComb (List (BinaryOp × Expr)) :=
  pMany (fun l =>
    match pOp l with
    | none => none
    | some (op, r₁) =>
      match pOperand r₁ with
      | none => none
      | some (rhs, r₂) => some ((op, rhs), r₂)) fuel

/-- One precedence level: operand, then a folded operator tail. -/
def pLevel (pOp : PComb BinaryOp) (pOperand : PComb Expr) (fuel : Nat) : PComb Expr := fun l =>
  match pOperand l with
  | none => none
  | some (first, r₁) =>
    match pOpTail pOp pOperand fuel r₁ with
    | some (pairs, r₂) => some (foldBinary first pairs, r₂)
    | none => some (first, r₁)

/-- The `&&` operator token. -/
def pAndOp : PComb BinaryOp := pPadded (fun l =>
  match l with
  | '&' :: '&' :: r => some (.and, r)
  | _ => none)

/-- The `||` operator token. -/
def pOrOp : PComb BinaryOp := pPadded (fun l =>
  match l with
  | '|' :: '|' :: r => some (.or, r)
  | _ => none)

/-- The full expression parser, one fuel step per nesting level:
`or := and ("||" and)*`, `and := cmp ("&&" cmp)*`,
`cmp := unary (cmpOp unary)*`. -/
def pFull : Nat → PComb Expr
  | 0 => fun _ => none
  | fuel + 1 =>
    let cmp := pLevel pCmpOp (pUnary fuel (pFull fuel)) fuel
    let andE := pLevel pAndOp cmp fuel
    pLevel pOrOp andE fuel

/-- `parse_filter` from `src/filter.rs`: run the parser and require that the
entire input is consumed (`then_ignore(end())`). -/
def parse_filter (s : String) : Option Expr :=
  match pFull (s.length + 1) s.toList with
  | some (e, []) => some e
  | _ => none

/-! ## `src/row.rs` — row decoder -/

/-- `VcfRow` from `src/row.rs`.  `pos` is the `u64` position; `qual` the
optional `f64` quality; `info` and `format` the two value namespaces. -/
structure VcfRow : Type where
  chrom : String
  pos : Nat
  id : Option String
  ref_allele : String
  alt_alleles : List String
  qual : Option ℚ
  filter : List String
  info : List (String × Value)
  format : List (String × Value)

/-- `VcfRow::get` from `src/row.rs`: built-in columns first, then the INFO
map, then the FORMAT map, then `Missing`. -/
def VcfRow.get (row : VcfRow) (field : String) : Value :=
  if field = "CHROM" then .string row.chrom
  else if field = "POS" then .number (row.pos : ℚ)
  else if field = "ID" then
    match row.id with
    | some s => .string s
    | none => .missing
  else if field = "REF" then .string row.ref_allele
  else if field = "ALT" then
    match row.alt_alleles with
    | [a] => .string a
    | l => .array (l.map .string)
  else if field = "QUAL" then
    match row.qual with
    | some q => .number q
    | none => .missing
  else if field = "FILTER" then
    match row.filter with
    | [f] => .string f
    | l => .array (l.map .string)
  else
    match lookupFirst row.info field with
    | some v => v
    | none => (lookupFirst row.format field).getD .missing

/-- The annotation-instance map built by `parse_info_value` for a structured
field: for each schema name (with its position), insert the pipe segment at
that position when present.  `HashMap::insert` overwrite is modelled by
prepending (see the top-of-file note), so later names shadow earlier
duplicates, exactly as in the source loop. -/
def annMapGo (parts : List String) : List String → Nat → List (String × String) → List (String × String)
  | [], _, m => m
  | n :: ns, i, m =>
    annMapGo parts ns (i + 1)
      (match parts.get? i with
       | some v => (n, v) :: m
       | none => m)

/-- Decode one comma-separated annotation instance of a structured field into
its positional inner array (the closure inside `parse_info_value`). -/
def annInstance (subfield_names : List String) (ann : String) : Value :=
  let parts := splitStr '|' ann
  let m := annMapGo parts subfield_names 0 []
  .array (subfield_names.map (fun n =>
    match lookupFirst m n with
    | some v => .string v
    | none => .missing))

/-- `parse_info_value` from `src/row.rs`: decode an INFO value using its
header metadata. -/
def parse_info_value (raw : String) (field : InfoField) : Value :=
  match field.subfields with
  | some subfield_names =>
    .array ((splitStr ',' raw).map (annInstance subfield_names))
  | none =>
    match field.number, field.field_type with
    | .count 1, .integer =>
      match parseI64 raw with
      | some n => .number (n : ℚ)
      | none => .string raw
    | .count 1, .float =>
      match parseF64 raw with
      | some q => .number q
      | none => .string raw
    | .flag, _ => .bool true
    | _, .integer =>
      let values := (splitStr ',' raw).map (fun s =>
        match parseI64 s with
        | some n => Value.number (n : ℚ)
        | none => Value.string s)
      match values with
      | [v] => v
      | vs => .array vs
    | _, .float =>
      let values := (splitStr ',' raw).map (fun s =>
        match parseF64 s with
        | some q => Value.number q
        | none => Value.string s)
      match values with
      | [v] => v
      | vs => .array vs
    | _, _ =>
      if raw.contains ',' ∧ ¬ raw.contains '|' then
        .array ((splitStr ',' raw).map .string)
      else .string raw

/-- `parse_info_value_unknown` from `src/row.rs`: best-effort decoding for a
key with no header metadata. -/
def parse_info_value_unknown (raw : String) : Value :=
  match parseF64 raw with
  | some q => .number q
  | none =>
    if raw.contains ',' ∧ ¬ raw.contains '|' then
      .array ((splitStr ',' raw).map .string)
    else .string raw

/-- `parse_info_column` from `src/row.rs`: the `;`-separated INFO entries. -/
def parse_info_column (info_str : String) (info_map : InfoMap) : List (String × Value) :=
  if info_str = "." then []
  else
    (splitStr ';' info_str).foldl
      (fun result field =>
        if field = "" then result
        else
          match splitOnceStr '=' field with
          | some (key, value) =>
            let parsed := match lookupFirst info_map key with
              | some field_meta => parse_info_value value field_meta
              | none => parse_info_value_unknown value
            (key, parsed) :: result
          | none => (field, Value.bool true) :: result)
      []

/-- `parse_format_columns` from `src/row.rs`: zip the `:`-separated FORMAT
keys with the `:`-separated sample values (the source iterates the keys with
their index and looks the index up in the values, which is exactly a
positional zip); `.` decodes to `Missing`, any other text to a `String`. -/
def parse_format_columns (format_str : String) (sample_str : String) : List (String × Value) :=
  ((splitStr ':' format_str).zip (splitStr ':' sample_str)).foldl
    (fun result kv =>
      let val := if kv.2 = "." then Value.missing else Value.string kv.2
      (kv.1, val) :: result)
    []

/-- `parse_row` from `src/row.rs`: decode one tab-separated line.  (The POS
error message carries Rust's `ParseIntError` display text after the
`Invalid POS: ` marker; that library-internal text is not modelled, so the
embedded message is the bare marker.) -/
def parse_row (row : String) (info_map : InfoMap) : Except VcfFilterError VcfRow :=
  let fields := splitStr '\t' row
  if fields.length < 8 then
    .error (.rowParseError ("Expected at least 8 columns, got " ++ toString fields.length))
  else
    match parseU64 (fields.getD 1 "") with
    | none => .error (.rowParseError "Invalid POS")
    | some pos =>
      .ok { chrom := fields.getD 0 ""
            pos := pos
            id := if fields.getD 2 "" = "." then none else some (fields.getD 2 "")
            ref_allele := fields.getD 3 ""
            alt_alleles := if fields.getD 4 "" = "." then [] else splitStr ',' (fields.getD 4 "")
            qual := if fields.getD 5 "" = "." then none else parseF64 (fields.getD 5 "")
            filter := if fields.getD 6 "" = "." then [] else splitStr ';' (fields.getD 6 "")
            info := parse_info_column (fields.getD 7 "") info_map
            format := if 10 ≤ fields.length then
                parse_format_columns (fields.getD 8 "") (fields.getD 9 "")
              else [] }

/-- `get_annotation_subfield` from `src/row.rs`. -/
def get_annotation_subfield (row : VcfRow) (field : String) (index : Nat)
    (subfield : String) (info_map : InfoMap) : Value :=
  match lookupFirst info_map field with
  | none => .missing
  | some field_meta =>
    match field_meta.subfields with
    | none => .missing
    | some subfield_names =>
      match subfield_names.indexOf? subfield with
      | none => .missing
      | some subfield_index =>
        match lookupFirst row.info field with
        | some (.array annotations) =>
          match annotations.get? index with
          | some (.array inner) =>
            (inner.get? subfield_index).getD .missing
          | _ => .missing
        | _ => .missing

/-- `get_all_annotation_subfields` from `src/row.rs` (wildcard access). -/
def get_all_annotation_subfields (row : VcfRow) (field : String)
    (subfield : String) (info_map : InfoMap) : List Value :=
  match lookupFirst info_map field with
  | none => []
  | some field_meta =>
    match field_meta.subfields with
    | none => []
    | some subfield_names =>
      match subfield_names.indexOf? subfield with
      | none => []
      | some subfield_index =>
        match lookupFirst row.info field with
        | some (.array annotations) =>
          annotations.filterMap (fun ann =>
            match ann with
            | .array arr => arr.get? subfield_index
            | _ => none)
        | _ => []

/-! ## `src/eval.rs` — evaluator -/

/-- `values_equal` from `src/eval.rs`. -/
def values_equal (left right : Value) : Bool :=
  match left, right with
  | .string l, .string r => l = r
  | .number l, .number r => |l - r| < f64Epsilon
  | .bool l, .bool r => l = r
  | .missing, .missing => true
  | .string s, .number n | .number n, .string s =>
    match parseF64 s with
    | some sn => |sn - n| < f64Epsilon
    | none => false
  | _, _ => false

/-- Substring containment (Rust `str::contains(&str)`): some suffix of `l`
starts with `r`. -/
def listContainsSub (l r : List Char) : Bool :=
  (List.range (l.length + 1)).any (fun i => r.isPrefixOf (l.drop i))

/-- `value_contains` from `src/eval.rs`: string containment only. -/
def value_contains (left right : Value) : Bool :=
  match left, right with
  | .string l, .string r => listContainsSub l.toList r.toList
  | _, _ => false

/-- `compare_values` from `src/eval.rs`: ordering with the Missing
short-circuit, numeric coercion, string fallback, and type-mismatch error. -/
def compare_values (left : Value) (op : BinaryOp) (right : Value) :
    Except VcfFilterError Bool :=
  match left, right with
  | .missing, _ => .ok false
  | _, .missing => .ok false
  | _, _ =>
    match left.as_number, right.as_number with
    | some l, some r =>
      match op with
      | .lt => .ok (l < r)
      | .gt => .ok (l > r)
      | .ltEq => .ok (l ≤ r)
      | .gtEq => .ok (l ≥ r)
      | _ => .error (.evaluationError "Unexpected operator in compare_values")
    | _, _ =>
      match left, right with
      | .string l, .string r =>
        match op with
        | .lt => .ok (decide (l < r))
        | .gt => .ok (decide (r < l))
        | .ltEq => .ok (decide (l ≤ r))
        | .gtEq => .ok (decide (r ≤ l))
        | _ => .error (.evaluationError "Unexpected operator in compare_values")
      | _, _ => .error (.typeMismatch left.type_name right.type_name)

/-- `value_to_bool` from `src/eval.rs`: total boolean coercion (every arm
returns `Ok`). -/
def value_to_bool (val : Value) : Except VcfFilterError Bool :=
  match val with
  | .bool b => .ok b
  | .missing => .ok false
  | .string s => .ok (s ≠ "")
  | .number n => .ok (n ≠ 0)
  | .array arr => .ok (! arr.isEmpty)

/-- `Result::unwrap_or` on a boolean result. -/
def exceptUnwrapOr (e : Except VcfFilterError Bool) (d : Bool) : Bool :=
  match e with
  | .ok b => b
  | .error _ => d

/-- The value-level part of `evaluate_binary` from `src/eval.rs`: given the
two eagerly evaluated operand values, apply the operator.  An `Array` left
operand is intercepted first and folded element-wise; otherwise the operator
dispatches on the pair. -/
def applyBinary (op : BinaryOp) (left_val right_val : Value) :
    Except VcfFilterError Value :=
  match left_val with
  | .array arr =>
    let result := match op with
      | .eq => arr.any (fun v => values_equal v right_val)
      | .notEq => arr.all (fun v => ! values_equal v right_val)
      | .contains => arr.any (fun v => value_contains v right_val)
      | _ => arr.any (fun v => exceptUnwrapOr (compare_values v op right_val) false)
    .ok (.bool result)
  | _ =>
    match op with
    | .eq => .ok (.bool (values_equal left_val right_val))
    | .notEq => .ok (.bool (! values_equal left_val right_val))
    | .lt => (compare_values left_val op right_val).map .bool
    | .gt => (compare_values left_val op right_val).map .bool
    | .ltEq => (compare_values left_val op right_val).map .bool
    | .gtEq => (compare_values left_val op right_val).map .bool
    | .contains => .ok (.bool (value_contains left_val right_val))
    | .and => do
      let left_bool ← value_to_bool left_val
      if ! left_bool then .ok (.bool false)
      else do
        let right_bool ← value_to_bool right_val
        .ok (.bool right_bool)
    | .or => do
      let left_bool ← value_to_bool left_val
      if left_bool then .ok (.bool true)
      else do
        let right_bool ← value_to_bool right_val
        .ok (.bool right_bool)

/-- The access-part scan loop of `resolve_with_base`: the last index, whether
a wildcard occurred, and the last subfield name. -/
def scanParts (access_parts : List AccessPart) : Option Nat × Bool × Option String :=
  access_parts.foldl
    (fun st p =>
      match p with
      | .index i => (some i, st.2.1, st.2.2)
      | .wildcard => (st.1, true, st.2.2)
      | .field n => (st.1, st.2.1, some n))
    (none, false, none)

/-- `resolve_with_base` from `src/eval.rs`: resolve a field with an optional
strict namespace and the remaining access parts. -/
def resolve_with_base (namespace_ : Option String) (field_name : String)
    (access_parts : List AccessPart) (row : VcfRow) (info_map : InfoMap) : Value :=
  let base_value := match namespace_ with
    | some "INFO" => (lookupFirst row.info field_name).getD .missing
    | some "FORMAT" => (lookupFirst row.format field_name).getD .missing
    | _ => row.get field_name
  match access_parts with
  | [] => base_value
  | _ =>
    let scan := scanParts access_parts
    let current_index := scan.1
    let is_wildcard := scan.2.1
    let subfield_name := scan.2.2
    let fallthroughIndex : Value :=
      match current_index with
      | some idx =>
        match base_value with
        | .array arr => (arr.get? idx).getD .missing
        | _ => .missing
      | none => .missing
    match subfield_name with
    | some subfield =>
      if namespace_ = some "FORMAT" then .missing
      else if is_wildcard then
        .array (get_all_annotation_subfields row field_name subfield info_map)
      else
        match current_index with
        | some idx => get_annotation_subfield row field_name idx subfield info_map
        | none => fallthroughIndex
    | none => fallthroughIndex

/-- `resolve_variable` from `src/eval.rs`: namespace detection and dispatch
to `resolve_with_base`. -/
def resolve_variable (parts : List AccessPart) (row : VcfRow) (info_map : InfoMap) :
    Except VcfFilterError Value :=
  match parts with
  | [] => .ok .missing
  | .field field_name :: rest =>
    if field_name = "INFO" ∨ field_name = "FORMAT" then
      match rest with
      | [] => .ok .missing
      | .field namespaced_field :: rest₂ =>
        .ok (resolve_with_base (some field_name) namespaced_field rest₂ row info_map)
      | _ => .ok .missing
    else
      .ok (resolve_with_base none field_name rest row info_map)
  | _ => .error (.evaluationError "Variable must start with a field name")

/-- `evaluate` from `src/eval.rs`.  `Binary` evaluates both operands eagerly
(as in the source) and then applies `applyBinary`. -/
def evaluate : Expr → VcfRow → InfoMap → Except VcfFilterError Value
  | .number n, _, _ => .ok (.number n)
  | .string s, _, _ => .ok (.string s)
  | .bool b, _, _ => .ok (.bool b)
  | .var parts, row, info_map => resolve_variable parts row info_map
  | .binary left op right, row, info_map => do
    let left_val ← evaluate left row info_map
    let right_val ← evaluate right row info_map
    applyBinary op left_val right_val
  | .unary .not inner, row, info_map => do
    let val ← evaluate inner row info_map
    let bool_val ← value_to_bool val
    .ok (.bool (! bool_val))
  | .existsPath parts, row, info_map => do
    let value ← resolve_variable parts row info_map
    .ok (.bool (! value.is_missing))

/-! ## `src/lib.rs` — the `FilterEngine` facade -/

/-- `FilterEngine` from `src/lib.rs`: owns the parsed header metadata. -/
structure FilterEngine : Type where
  info_map : InfoMap

/-- `FilterEngine::new`. -/
def FilterEngine.new (header : String) : Except VcfFilterError FilterEngine :=
  (parse_header header).map (fun m => { info_map := m })

/-- Alias for the top-level evaluator, so that the `FilterEngine` methods can
refer to it without colliding with their own names. -/
def evaluateExpr : Expr → VcfRow → InfoMap → Except VcfFilterError Value := evaluate

/-- Alias for the top-level row decoder (same reason). -/
def parseRowStr : String → InfoMap → Except VcfFilterError VcfRow := parse_row

/-- `FilterEngine::evaluate` from `src/lib.rs`: parse the row, parse the
filter, evaluate, and coerce the result with `as_bool().unwrap_or(false)`. -/
def FilterEngine.evaluate (engine : FilterEngine) (filter : String) (row : String) :
    Except VcfFilterError Bool := do
  let parsed_row ← parseRowStr row engine.info_map
  match parse_filter filter with
  | none => .error (.filterParseError "filter parse failed")
  | some expr => do
    let result ← evaluateExpr expr parsed_row engine.info_map
    .ok ((result.as_bool).getD false)

/-- `FilterEngine::parse_row`. -/
def FilterEngine.parse_row (engine : FilterEngine) (row : String) :
    Except VcfFilterError VcfRow :=
  parseRowStr row engine.info_map

/-- `FilterEngine::evaluate_parsed` from `src/lib.rs`: evaluate a pre-parsed
expression against a pre-parsed row, with the same `as_bool().unwrap_or(false)`
coercion as `FilterEngine::evaluate`. -/
def FilterEngine.evaluate_parsed (engine : FilterEngine) (expr : Expr) (row : VcfRow) :
    Except VcfFilterError Bool := do
  let result ← evaluateExpr expr row engine.info_map
  .ok ((result.as_bool).getD false)

/-! ## Test fixtures used by witnesses and counterexamples -/

/-- A sample decoded row: two ALT alleles and a structured-ish INFO value. -/
def sampleRow : VcfRow :=
  { chrom := "chr1", pos := 100, id := none, ref_allele := "A",
    alt_alleles := ["A", "G"], qual := some 50, filter := ["PASS"],
    info := [("X", Value.array [Value.string "a", Value.string "b"])],
    format := [] }

/-- A sample decoded row where both namespaces define `DP`. -/
def sampleRowDP : VcfRow :=
  { chrom := "chr1", pos := 100, id := none, ref_allele := "A",
    alt_alleles := ["G"], qual := some 50, filter := ["PASS"],
    info := [("DP", Value.number 30)],
    format := [("DP", Value.string "15"), ("GT", Value.string "0/1")] }

/-! ## Helper lemmas -/

/-- `values_equal` against `Missing` on the right holds exactly for a
`Missing` left operand. -/
theorem values_equal_missing_right (v : Value) :
    values_equal v .missing = true ↔ v = .missing := by
  cases v <;> simp [values_equal]

/-- `compare_values` with a `Missing` right operand always returns
`Ok(false)`. -/
theorem compare_values_missing_right (v : Value) (op : BinaryOp) :
    compare_values v op .missing = .ok false := by
  cases v <;> rfl

/-- `compare_values` with a `Missing` left operand always returns
`Ok(false)`. -/
theorem compare_values_missing_left (v : Value) (op : BinaryOp) :
    compare_values .missing op v = .ok false := by
  cases v <;> rfl

/-- `value_contains` with a `Missing` operand (either side) is `false`. -/
theorem value_contains_missing (v : Value) :
    value_contains v .missing = false ∧ value_contains .missing v = false := by
  cases v <;> exact ⟨rfl, rfl⟩

/-- The element-wise order fold of the `Array` branch is `false` whenever the
right operand is `Missing`. -/
theorem array_fold_order_missing (arr : List Value) (op : BinaryOp) :
    (arr.any fun v => exceptUnwrapOr (compare_values v op .missing) false) = false := by
  have h : (fun v => exceptUnwrapOr (compare_values v op .missing) false) =
      fun _ => false :=
    funext fun v => by simp [compare_values_missing_right, exceptUnwrapOr]
  rw [h]
  induction arr with
  | nil => rfl
  | cons v rest ih => simp [ih]

/-- Monad bind on `Except` applied to `ok` (definitional). -/
theorem exceptBind_ok {α β : Type} (a : α) (f : α → Except VcfFilterError β) :
    (Except.ok a >>= f) = f a := rfl

/-- Monad bind on `Except` applied to `error` (definitional). -/
theorem exceptBind_err {α β : Type} (e : VcfFilterError) (f : α → Except VcfFilterError β) :
    ((Except.error e : Except VcfFilterError α) >>= f) = .error e := rfl

/-- `values_equal` against `Missing` on the right fails exactly for a
non-`Missing` left operand. -/
theorem values_equal_missing_right_false (v : Value) :
    values_equal v .missing = false ↔ v ≠ .missing := by
  cases v <;> simp [values_equal]

/-- The element-wise `contains` fold against a `Missing` right operand is
`false`. -/
theorem array_fold_contains_missing (arr : List Value) :
    (arr.any fun v => value_contains v .missing) = false := by
  have h : (fun v => value_contains v .missing) = fun (_ : Value) => false :=
    funext fun v => (value_contains_missing v).1
  rw [h]
  induction arr with
  | nil => rfl
  | cons v rest ih => simp [ih]

/-! ## Claim C1 -/

/-- C1 counterexample: the claim says every equality or comparison with a
`Missing` operand (on either side) evaluates to `false`, but the code
evaluates `Missing == Missing` to `true` (and, consequently, `5 != Missing`
to `true`). -/
theorem c1_counterexample :
    applyBinary .eq .missing .missing = .ok (.bool true) ∧
    applyBinary .notEq (.number 5) .missing = .ok (.bool true) := ⟨rfl, rfl⟩

/-- C1 (amended): with at least one `Missing` operand, every ordering
comparison and `contains` evaluates to `Ok(Bool(false))` without error;
`==` evaluates to `Ok(Bool(true))` exactly when both operands are `Missing`
(or when an `Array` left operand contains a `Missing` element, the fold being
element-wise), and `!=` is its pointwise negation. -/
theorem c1_missing_comparisons (l r : Value) (h : l = .missing ∨ r = .missing) :
    applyBinary .lt l r = .ok (.bool false) ∧
    applyBinary .gt l r = .ok (.bool false) ∧
    applyBinary .ltEq l r = .ok (.bool false) ∧
    applyBinary .gtEq l r = .ok (.bool false) ∧
    applyBinary .contains l r = .ok (.bool false) ∧
    (l = .missing ∧ r = .missing →
      applyBinary .eq l r = .ok (.bool true) ∧
      applyBinary .notEq l r = .ok (.bool false)) ∧
    (∀ a, l = .array a →
      (applyBinary .eq l r = .ok (.bool true) ↔ Value.missing ∈ a) ∧
      (applyBinary .notEq l r = .ok (.bool true) ↔ Value.missing ∉ a)) ∧
    (¬ (l = .missing ∧ r = .missing) → (∀ a, l ≠ .array a) →
      applyBinary .eq l r = .ok (.bool false) ∧
      applyBinary .notEq l r = .ok (.bool true)) := by
  rcases h with h | h
  · subst h
    refine ⟨by cases r <;> rfl, by cases r <;> rfl, by cases r <;> rfl,
      by cases r <;> rfl, by cases r <;> rfl, ?_, by rintro a ⟨⟩, ?_⟩
    · rintro ⟨-, h⟩
      subst h
      exact ⟨rfl, rfl⟩
    · intro hne _
      cases r with
      | missing => exact absurd ⟨rfl, rfl⟩ hne
      | string s => exact ⟨rfl, rfl⟩
      | number q => exact ⟨rfl, rfl⟩
      | bool b => exact ⟨rfl, rfl⟩
      | array a => exact ⟨rfl, rfl⟩
  · subst h
    cases l with
    | missing =>
      exact ⟨rfl, rfl, rfl, rfl, rfl, fun _ => ⟨rfl, rfl⟩, by rintro a ⟨⟩,
        fun hne _ => absurd ⟨rfl, rfl⟩ hne⟩
    | string s =>
      exact ⟨rfl, rfl, rfl, rfl, rfl, by rintro ⟨⟨⟩, -⟩, by rintro a ⟨⟩,
        fun _ _ => ⟨rfl, rfl⟩⟩
    | number q =>
      exact ⟨rfl, rfl, rfl, rfl, rfl, by rintro ⟨⟨⟩, -⟩, by rintro a ⟨⟩,
        fun _ _ => ⟨rfl, rfl⟩⟩
    | bool b =>
      exact ⟨rfl, rfl, rfl, rfl, rfl, by rintro ⟨⟨⟩, -⟩, by rintro a ⟨⟩,
        fun _ _ => ⟨rfl, rfl⟩⟩
    | array a =>
      refine ⟨?_, ?_, ?_, ?_, ?_, by rintro ⟨⟨⟩, -⟩, ?_, by rintro - hna; exact absurd rfl (hna a)⟩
      · simp [applyBinary, array_fold_order_missing]
      · simp [applyBinary, array_fold_order_missing]
      · simp [applyBinary, array_fold_order_missing]
      · simp [applyBinary, array_fold_order_missing]
      · simp [applyBinary, array_fold_contains_missing]
      · rintro a' h
        cases h
        constructor
        · simp only [applyBinary, Except.ok.injEq, Value.bool.injEq,
            List.any_eq_true, values_equal_missing_right]
          exact ⟨fun ⟨x, hx, he⟩ => he ▸ hx, fun hx => ⟨.missing, hx, rfl⟩⟩
        · simp only [applyBinary, Except.ok.injEq, Value.bool.injEq,
            List.all_eq_true, Bool.not_eq_eq_eq_not, Bool.not_true,
            values_equal_missing_right_false]
          exact ⟨fun hall hmem => absurd rfl (hall .missing hmem),
            fun hnmem x hx he => hnmem (he ▸ hx)⟩

/-- C1 witness: the amended theorem applied at `(Missing, Number 5)`. -/
theorem c1_witness :
    applyBinary .lt .missing (.number 5) = .ok (.bool false) ∧
    applyBinary .contains .missing (.number 5) = .ok (.bool false) ∧
    applyBinary .eq .missing (.number 5) = .ok (.bool false) ∧
    applyBinary .notEq .missing (.number 5) = .ok (.bool true) := by
  have h := c1_missing_comparisons .missing (.number 5) (Or.inl rfl)
  obtain ⟨h1, -, -, -, h5, -, -, h8⟩ := h
  have h9 := h8 (by rintro ⟨-, ⟨⟩⟩) (by rintro a ⟨⟩)
  exact ⟨h1, h5, h9.1, h9.2⟩

/-- The Bool computed by `value_to_bool` (which returns `Ok` in every arm). -/
def toBoolPure : Value → Bool
  | .bool b => b
  | .missing => false
  | .string s => s ≠ ""
  | .number n => n ≠ 0
  | .array arr => ! arr.isEmpty

/-- `value_to_bool` is total: it returns `Ok` of `toBoolPure` on every
value. -/
theorem value_to_bool_eq (v : Value) : value_to_bool v = .ok (toBoolPure v) := by
  cases v <;> rfl

/-- `applyBinary` on `&&`/`||` with a non-`Array` left operand computes the
Bool conjunction/disjunction of the two coercions. -/
theorem applyBinary_logical_pure (v₁ v₂ : Value) (hna : ∀ a, v₁ ≠ .array a) :
    applyBinary .and v₁ v₂ = .ok (.bool (toBoolPure v₁ && toBoolPure v₂)) ∧
    applyBinary .or v₁ v₂ = .ok (.bool (toBoolPure v₁ || toBoolPure v₂)) := by
  cases v₁ with
  | array a => exact absurd rfl (hna a)
  | string s =>
    constructor <;>
      · simp only [applyBinary, value_to_bool_eq, exceptBind_ok]
        cases hX : toBoolPure (Value.string s) <;> simp [hX, exceptBind_ok]
  | number q =>
    constructor <;>
      · simp only [applyBinary, value_to_bool_eq, exceptBind_ok]
        cases hX : toBoolPure (Value.number q) <;> simp [hX, exceptBind_ok]
  | bool b =>
    constructor <;>
      · simp only [applyBinary, value_to_bool_eq, exceptBind_ok]
        cases hX : toBoolPure (Value.bool b) <;> simp [hX, exceptBind_ok]
  | missing =>
    constructor <;>
      · simp only [applyBinary, value_to_bool_eq, exceptBind_ok]
        simp [toBoolPure, exceptBind_ok]

/-! ## Claim C2 -/

/-- C2 counterexample: the claim says that when the left operand of `&&`
coerces to `false` the right operand is not evaluated at all and the result
is `Ok(false)` even when the right operand alone would error; but the code
evaluates both operands eagerly, so `false && (true < 5)` propagates the
right operand's type-mismatch error instead of returning `Ok(false)`. -/
theorem c2_counterexample :
    value_to_bool (.bool false) = .ok false ∧
    evaluate (.binary (.bool true) .lt (.number 5)) sampleRow [] =
      .error (.typeMismatch "bool" "number") ∧
    evaluate (.binary (.bool false) .and (.binary (.bool true) .lt (.number 5)))
      sampleRow [] = .error (.typeMismatch "bool" "number") := ⟨rfl, rfl, rfl⟩

/-- C2 (amended): `&&` and `||` evaluate both operands eagerly, so an error
from the right operand propagates even when the left operand's boolean
coercion already decides the result; when both operands evaluate
successfully and the left value is not an `Array`, the result is
`Ok(Bool(·))` of the conjunction/disjunction of the two coercions (which
coincides with the left coercion in the short-circuit cases and with the
right coercion otherwise). -/
theorem c2_logical_eager (e₁ e₂ : Expr) (row : VcfRow) (m : InfoMap) :
    (∀ v₁ err, evaluate e₁ row m = .ok v₁ → evaluate e₂ row m = .error err →
      evaluate (.binary e₁ .and e₂) row m = .error err ∧
      evaluate (.binary e₁ .or e₂) row m = .error err) ∧
    (∀ v₁ v₂, evaluate e₁ row m = .ok v₁ → evaluate e₂ row m = .ok v₂ →
      (∀ a, v₁ ≠ .array a) →
      evaluate (.binary e₁ .and e₂) row m =
        .ok (.bool (toBoolPure v₁ && toBoolPure v₂)) ∧
      evaluate (.binary e₁ .or e₂) row m =
        .ok (.bool (toBoolPure v₁ || toBoolPure v₂))) := by
  constructor
  · intro v₁ err h₁ h₂
    constructor <;> simp [evaluate, h₁, h₂, exceptBind_ok, exceptBind_err]
  · intro v₁ v₂ h₁ h₂ hna
    obtain ⟨hAnd, hOr⟩ := applyBinary_logical_pure v₁ v₂ hna
    exact ⟨by simp [evaluate, h₁, h₂, exceptBind_ok, hAnd],
      by simp [evaluate, h₁, h₂, exceptBind_ok, hOr]⟩

/-- C2 witness: the amended theorem applied at concrete operands — an
erroring right operand under a false left operand, and a successful pair. -/
theorem c2_witness :
    evaluate (.binary (.bool false) .and (.binary (.bool true) .lt (.number 5)))
      sampleRow [] = .error (.typeMismatch "bool" "number") ∧
    evaluate (.binary (.bool false) .and (.bool true)) sampleRow [] =
      .ok (.bool false) ∧
    evaluate (.binary (.bool true) .or (.bool false)) sampleRow [] =
      .ok (.bool true) := by
  refine ⟨?_, ?_, ?_⟩
  · exact ((c2_logical_eager (.bool false) (.binary (.bool true) .lt (.number 5))
      sampleRow []).1 (.bool false) _ rfl rfl).1
  · have h := ((c2_logical_eager (.bool false) (.bool true) sampleRow []).2
      (.bool false) (.bool true) rfl rfl (by rintro a ⟨⟩)).1
    simpa using h
  · have h := ((c2_logical_eager (.bool true) (.bool false) sampleRow []).2
      (.bool true) (.bool false) rfl rfl (by rintro a ⟨⟩)).2
    simpa using h

/-- `compare_values` never returns `Ok(true)` for a logical operator: with a
`Missing` operand it returns `Ok(false)` and otherwise the operator match
falls into the error arm, so the `unwrap_or(false)` fold is `false`. -/
theorem compare_values_logical (v w : Value) (op : BinaryOp)
    (hop : op = .and ∨ op = .or) :
    compare_values v op w = .ok false ∨ ∃ e, compare_values v op w = .error e := by
  rcases hop with rfl | rfl <;> cases v <;> cases w <;>
    simp only [compare_values, Value.as_number] <;>
    first
    | (left; trivial)
    | (right; exact ⟨_, rfl⟩)
    | (split <;> first | (left; trivial) | (right; exact ⟨_, rfl⟩))

/-- Consequently the `unwrap_or(false)` element fold is `false` for the
logical operators. -/
theorem compare_values_logical_unwrap (v w : Value) (op : BinaryOp)
    (hop : op = .and ∨ op = .or) :
    exceptUnwrapOr (compare_values v op w) false = false := by
  rcases compare_values_logical v w op hop with h | ⟨e, h⟩ <;>
    simp [exceptUnwrapOr, h]

/-! ## Claim C3 -/

/-- C3 counterexample: the claim says `&&`/`||` with an `Array` left operand
behaves like any other value kind (boolean coercion, true for a non-empty
array); but `ALT && true` on a row with two ALT alleles evaluates to
`Ok(Bool(false))` although both coercions are `true`. -/
theorem c3_counterexample :
    evaluate (.var [.field "ALT"]) sampleRow [] =
      .ok (.array [.string "A", .string "G"]) ∧
    value_to_bool (.array [.string "A", .string "G"]) = .ok true ∧
    value_to_bool (.bool true) = .ok true ∧
    evaluate (.binary (.var [.field "ALT"]) .and (.bool true)) sampleRow [] =
      .ok (.bool false) ∧
    evaluate (.binary (.var [.field "ALT"]) .or (.bool true)) sampleRow [] =
      .ok (.bool false) := ⟨rfl, rfl, rfl, rfl, rfl⟩

/-- C3 (amended): an `&&` or `||` whose left operand evaluates to an `Array`
falls into the element-wise comparison branch, whose per-element
`compare_values` fold never succeeds for a logical operator, so the result is
always `Ok(Bool(false))` — regardless of the array's contents and of the
right operand's value; boolean coercion is not applied. -/
theorem c3_array_logical (e₁ e₂ : Expr) (row : VcfRow) (m : InfoMap)
    (arr : List Value) (v₂ : Value)
    (h₁ : evaluate e₁ row m = .ok (.array arr))
    (h₂ : evaluate e₂ row m = .ok v₂) :
    evaluate (.binary e₁ .and e₂) row m = .ok (.bool false) ∧
    evaluate (.binary e₁ .or e₂) row m = .ok (.bool false) := by
  have hfold : ∀ op, op = BinaryOp.and ∨ op = BinaryOp.or →
      (arr.any fun v => exceptUnwrapOr (compare_values v op v₂) false) = false := by
    intro op hop
    have h : (fun v => exceptUnwrapOr (compare_values v op v₂) false) =
        fun (_ : Value) => false :=
      funext fun v => compare_values_logical_unwrap v v₂ op hop
    rw [h]
    induction arr with
    | nil => rfl
    | cons v rest ih => simp [ih]
  constructor
  · have h := hfold .and (Or.inl rfl)
    simp [evaluate, h₁, h₂, exceptBind_ok, applyBinary, h]
  · have h := hfold .or (Or.inr rfl)
    simp [evaluate, h₁, h₂, exceptBind_ok, applyBinary, h]

/-- C3 witness: the amended theorem applied to `ALT && true` / `ALT || true`
on the sample row, where `ALT` resolves to a two-element array. -/
theorem c3_witness :
    evaluate (.binary (.var [.field "ALT"]) .and (.bool true)) sampleRow [] =
      .ok (.bool false) ∧
    evaluate (.binary (.var [.field "ALT"]) .or (.bool true)) sampleRow [] =
      .ok (.bool false) :=
  c3_array_logical (.var [.field "ALT"]) (.bool true) sampleRow []
    [.string "A", .string "G"] (.bool true) rfl rfl

/-! ## Claim C4 -/

/-- The subfield hint of a description, written following the spec's words
(§4.1): take the first single-quote-delimited span, split it on pipes,
normalize each segment (trim; spaces, dots and slashes to underscores), and
drop empty segments.  This is the reference list the claim compares the
resolved schema against. -/
def hintSegments (description : String) : List String :=
  match firstQuotedSpan description.toList with
  | none => []
  | some span => ((splitCh '|' span).map normalizeSeg).filter (· ≠ "")

/-- Splitting on an absent separator yields the single whole piece. -/
theorem splitCh_not_mem (c : Char) (l : List Char) (h : c ∉ l) :
    splitCh c l = [l] := by
  induction l with
  | nil => rfl
  | cons x xs ih =>
    simp only [List.mem_cons, not_or] at h
    obtain ⟨hxc, hxs⟩ := h
    simp only [splitCh, ih hxs]
    rw [if_neg (fun hx : x = c => hxc hx.symm)]

/-- A successfully parsed `##INFO` line carries the schema extracted from its
own description. -/
theorem parse_info_line_subfields (line : String) (f : InfoField)
    (h : parse_info_line line = some f) :
    f.subfields = extract_subfields f.description := by
  simp only [parse_info_line] at h
  split at h
  · split at h
    · split at h
      · cases h
        rfl
      · cases h
    · cases h
  · cases h

/-- With at least two surviving segments, `extract_subfields` returns exactly
the hint segments. -/
theorem extract_subfields_of_hint (d : String)
    (h2 : 2 ≤ (hintSegments d).length) :
    extract_subfields d = some (hintSegments d) := by
  cases hq : firstQuotedSpan d.toList with
  | none =>
    have hempty : hintSegments d = [] := by unfold hintSegments; rw [hq]
    rw [hempty] at h2
    simp at h2
  | some span =>
    have hseg : hintSegments d =
        ((splitCh '|' span).map normalizeSeg).filter (· ≠ "") := by
      unfold hintSegments; rw [hq]
    rw [hseg] at h2 ⊢
    unfold extract_subfields
    rw [hq]
    dsimp only
    by_cases hp : span.contains '|'
    · rw [if_neg (not_not_intro hp)]
      rw [if_pos h2]
    · exfalso
      have hnm : '|' ∉ span := by
        intro hmem
        exact hp (List.elem_eq_true_of_mem hmem)
      rw [splitCh_not_mem '|' span hnm] at h2
      have hle := List.length_filter_le (fun x => decide (x ≠ ""))
        ([span].map normalizeSeg)
      simp only [List.map_cons, List.map_nil, List.length_cons,
        List.length_nil] at hle
      simp only [List.map_cons, List.map_nil] at h2
      omega

/-- C4 (confirmed): for every header declaration whose description carries a
quoted pipe-delimited hint with k ≥ 2 (normalized, non-empty) segments, the
resolved field's subfield schema is exactly those k segments in source
order. -/
theorem c4_subfield_schema (line : String) (f : InfoField) (k : Nat)
    (hparse : parse_info_line line = some f)
    (hk : (hintSegments f.description).length = k) (h2 : 2 ≤ k) :
    f.subfields = some (hintSegments f.description) ∧
    ∃ segs, f.subfields = some segs ∧ segs.length = k := by
  have hsub := parse_info_line_subfields line f hparse
  have hext := extract_subfields_of_hint f.description (by omega)
  refine ⟨hsub.trans hext, hintSegments f.description, hsub.trans hext, hk⟩

/-- A concrete `##INFO` declaration whose description holds the quoted hint
`'A | B'`. -/
def c4Line : String :=
  "##INFO=<ID=X,Number=.,Type=String,Description=\"Hint: " ++ squote.toString
    ++ "A | B" ++ squote.toString ++ "\">"

/-- C4 witness: the theorem applied to the concrete declaration `c4Line`,
whose hint has exactly 2 segments. -/
theorem c4_witness :
    ∃ f, parse_info_line c4Line = some f ∧
      f.subfields = some ["A", "B"] ∧ hintSegments f.description = ["A", "B"] := by
  refine ⟨{ id := "X", number := .variable, field_type := .string,
            description := "Hint: " ++ squote.toString ++ "A | B" ++ squote.toString,
            subfields := some ["A", "B"] }, ?_, ?_, ?_⟩
  · rfl
  · have h := (c4_subfield_schema c4Line
      { id := "X", number := .variable, field_type := .string,
        description := "Hint: " ++ squote.toString ++ "A | B" ++ squote.toString,
        subfields := some ["A", "B"] } 2 rfl rfl (by omega)).1
    simp only [h]
  · rfl

/-! ## Claim C5 -/

/-- C5 (confirmed): for a field name that is none of the nine built-in column
names, the unqualified path resolves from the INFO map when present there
(even if FORMAT also has the name), from the FORMAT map otherwise, and to
`Missing` when absent from both; `INFO.NAME` and `FORMAT.NAME` look up
strictly in their own map only. -/
theorem c5_namespace_resolution (row : VcfRow) (m : InfoMap) (name : String)
    (h : name ∉ ["CHROM", "POS", "ID", "REF", "ALT", "QUAL", "FILTER",
      "INFO", "FORMAT"]) :
    resolve_variable [.field name] row m =
      .ok (match lookupFirst row.info name with
           | some v => v
           | none => (lookupFirst row.format name).getD .missing) ∧
    resolve_variable [.field "INFO", .field name] row m =
      .ok ((lookupFirst row.info name).getD .missing) ∧
    resolve_variable [.field "FORMAT", .field name] row m =
      .ok ((lookupFirst row.format name).getD .missing) := by
  simp only [List.mem_cons, List.mem_singleton, not_or] at h
  obtain ⟨h1, h2, h3, h4, h5, h6, h7, h8, h9⟩ := h
  refine ⟨?_, ?_, ?_⟩
  · simp only [resolve_variable]
    rw [if_neg (by simp [h8, h9])]
    simp only [resolve_with_base, VcfRow.get, if_neg h1, if_neg h2, if_neg h3,
      if_neg h4, if_neg h5, if_neg h6, if_neg h7]
  · rfl
  · rfl

/-- C5 witness: the theorem applied to the field `DP` on a row in which both
the INFO map and the FORMAT map bind `DP`. -/
theorem c5_witness :
    resolve_variable [.field "DP"] sampleRowDP [] = .ok (.number 30) ∧
    resolve_variable [.field "INFO", .field "DP"] sampleRowDP [] =
      .ok (.number 30) ∧
    resolve_variable [.field "FORMAT", .field "DP"] sampleRowDP [] =
      .ok (.string "15") := by
  have h := c5_namespace_resolution sampleRowDP [] "DP" (by decide)
  obtain ⟨ha, hb, hc⟩ := h
  refine ⟨?_, ?_, ?_⟩
  · rw [ha]; rfl
  · rw [hb]; rfl
  · rw [hc]; rfl

/-! ## Claim C6 -/

/-- Names not in the schema are untouched by the annotation-map loop. -/
theorem annMapGo_lookup_not_mem (parts : List String) (names : List String)
    (key : String) (hkey : key ∉ names) :
    ∀ (i : Nat) (m : List (String × String)),
      lookupFirst (annMapGo parts names i m) key = lookupFirst m key := by
  induction names with
  | nil => intro i m; rfl
  | cons n ns ih =>
    intro i m
    simp only [List.mem_cons, not_or] at hkey
    obtain ⟨hkn, hkns⟩ := hkey
    simp only [annMapGo]
    rw [ih hkns]
    cases hp : parts.get? i with
    | none => rfl
    | some v =>
      simp only [lookupFirst]
      rw [if_neg (fun he : n = key => hkn he.symm)]

/-- With pairwise-distinct schema names, the annotation-map lookup of the
`j`-th name yields exactly the `(i+j)`-th pipe segment (or falls through to
the initial map when that segment is absent). -/
theorem annMapGo_lookup_nodup (parts : List String) :
    ∀ (names : List String), names.Nodup →
      ∀ (j : Nat) (hj : j < names.length) (i : Nat) (m : List (String × String)),
        lookupFirst (annMapGo parts names i m) (names.get ⟨j, hj⟩) =
          (match parts.get? (i + j) with
           | some v => some v
           | none => lookupFirst m (names.get ⟨j, hj⟩)) := by
  intro names
  induction names with
  | nil => intro _ j hj; exact absurd hj (by simp)
  | cons n ns ih =>
    intro hnd j hj i m
    have hn : n ∉ ns := (List.nodup_cons.mp hnd).1
    have hns : ns.Nodup := (List.nodup_cons.mp hnd).2
    cases j with
    | zero =>
      simp only [List.get, annMapGo, Nat.add_zero]
      rw [annMapGo_lookup_not_mem parts ns n hn]
      cases hp : parts.get? i with
      | none => rfl
      | some v => simp [lookupFirst]
    | succ j' =>
      have hj' : j' < ns.length := by
        simpa using hj
      simp only [List.get, annMapGo]
      have harith : i + 1 + j' = i + (j' + 1) := by omega
      rw [ih hns j' hj' (i + 1) _, harith]
      cases hp : parts.get? (i + (j' + 1)) with
      | some v => rfl
      | none =>
        have hkey : ns.get ⟨j', hj'⟩ ∈ ns := List.get_mem ns j' hj'
        have hne : ¬ n = ns.get ⟨j', hj'⟩ := fun he => hn (he ▸ hkey)
        cases hq : parts.get? i with
        | none => rfl
        | some w =>
          simp only [lookupFirst]
          rw [if_neg hne]

/-- Under a duplicate-free schema, one annotation instance decodes to the
positional array of its pipe segments, `Missing` at unsupplied positions. -/
theorem annInstance_nodup (names : List String) (hnd : names.Nodup) (ann : String) :
    annInstance names ann =
      .array ((List.range names.length).map (fun i =>
        match (splitStr '|' ann).get? i with
        | some s => Value.string s
        | none => Value.missing)) := by
  simp only [annInstance]
  congr 1
  apply List.ext_getElem (by simp)
  intro i h1 h2
  simp only [List.getElem_map, List.getElem_range]
  have hl := annMapGo_lookup_nodup (splitStr '|' ann) names hnd i (by simpa using h1) 0 []
  simp only [Nat.zero_add] at hl
  simp only [List.get_eq_getElem] at hl
  rw [hl]
  cases hp : (splitStr '|' ann).get? i <;> rfl

/-- C6 (amended): for an INFO field with a subfield schema of length k whose
entries are pairwise distinct, decoding produces an `Array` of inner arrays,
one per comma-separated instance, each of length k with position i holding
the i-th pipe segment as a `String` and `Missing` at unsupplied positions.
(With duplicated schema names the duplicate positions all receive the last
supplied segment for that name — see the counterexample.) -/
theorem c6_structured_decode (field : InfoField) (names : List String) (raw : String)
    (hs : field.subfields = some names) (hnd : names.Nodup) :
    parse_info_value raw field =
      .array ((splitStr ',' raw).map (fun ann =>
        .array ((List.range names.length).map (fun i =>
          match (splitStr '|' ann).get? i with
          | some s => Value.string s
          | none => Value.missing)))) := by
  unfold parse_info_value
  rw [hs]
  dsimp only
  congr 1
  exact List.map_congr_left (fun ann _ => annInstance_nodup names hnd ann)

/-- An `InfoField` with a duplicated subfield schema, as produced by a
description hint `'A | B | A'`. -/
def c6DupField : InfoField :=
  { id := "D", number := .variable, field_type := .string,
    description := "x" ++ squote.toString ++ "A | B | A" ++ squote.toString,
    subfields := some ["A", "B", "A"] }

/-- C6 counterexample: with the duplicated schema `[A, B, A]` (reachable from
a real description hint), the instance `1|2|3` decodes to `[3, 2, 3]` — the
claim's required positional alignment (position 0 holds segment 0, i.e. `1`)
fails. -/
theorem c6_counterexample :
    extract_subfields c6DupField.description = some ["A", "B", "A"] ∧
    c6DupField.subfields = some ["A", "B", "A"] ∧
    parse_info_value "1|2|3" c6DupField =
      .array [.array [.string "3", .string "2", .string "3"]] ∧
    ¬ parse_info_value "1|2|3" c6DupField =
        .array [.array [.string "1", .string "2", .string "3"]] := by
  refine ⟨rfl, rfl, rfl, ?_⟩
  intro h
  have h0 : Value.string "3" = Value.string "1" := by
    have h1 : Value.array [Value.array [Value.string "3", Value.string "2", Value.string "3"]] =
        Value.array [Value.array [Value.string "1", Value.string "2", Value.string "3"]] := by
      exact Eq.trans (Eq.symm rfl) h
    have h2 := Value.array.inj h1
    have h3 := (List.cons.inj h2).1
    have h4 := Value.array.inj h3
    exact (List.cons.inj h4).1
  have h5 : ("3" : String) = "1" := Value.string.inj h0
  exact absurd h5 (by decide)

/-- C6 witness: the amended theorem applied to the duplicate-free schema
`[A, B]` and the raw value `1|2,3` — two instances, the second short. -/
theorem c6_witness :
    parse_info_value "1|2,3"
      { id := "S", number := .variable, field_type := .string,
        description := "", subfields := some ["A", "B"] } =
      .array [.array [.string "1", .string "2"],
              .array [.string "3", .missing]] := by
  have h := c6_structured_decode
    { id := "S", number := .variable, field_type := .string,
      description := "", subfields := some ["A", "B"] }
    ["A", "B"] "1|2,3" rfl (by decide)
  rw [h]
  rfl

/-! ## Claim C7 -/

/-- C7 (confirmed): row decoding fails with a row-parse error exactly when
the line has fewer than 8 tab-separated columns (the error naming the actual
count) or the POS column fails `u64` parsing; every other line decodes to a
row (whose `pos` is the parsed POS).  The three cases below are exhaustive
and mutually exclusive. -/
theorem c7_row_errors (s : String) (m : InfoMap) :
    ((splitStr '\t' s).length < 8 →
      parse_row s m = .error (.rowParseError
        ("Expected at least 8 columns, got " ++ toString (splitStr '\t' s).length))) ∧
    (8 ≤ (splitStr '\t' s).length →
      parseU64 ((splitStr '\t' s).getD 1 "") = none →
      parse_row s m = .error (.rowParseError "Invalid POS")) ∧
    (8 ≤ (splitStr '\t' s).length →
      ∀ p, parseU64 ((splitStr '\t' s).getD 1 "") = some p →
        ∃ r, parse_row s m = .ok r ∧ r.pos = p) := by
  refine ⟨?_, ?_, ?_⟩
  · intro hlt
    unfold parse_row
    rw [if_pos hlt]
  · intro hge hpos
    unfold parse_row
    rw [if_neg (by omega), hpos]
  · intro hge p hpos
    unfold parse_row
    rw [if_neg (by omega), hpos]
    exact ⟨_, rfl, rfl⟩

/-- C7 witness: the theorem applied to a one-column line, a line with a
non-numeric POS, and a well-formed line. -/
theorem c7_witness :
    parse_row "abc" [] =
      .error (.rowParseError "Expected at least 8 columns, got 1") ∧
    parse_row "c\tx\t.\tA\tG\t.\t.\t." [] =
      .error (.rowParseError "Invalid POS") ∧
    ∃ r, parse_row "c\t7\t.\tA\tG\t.\t.\t." [] = .ok r ∧ r.pos = 7 := by
  refine ⟨?_, ?_, ?_⟩
  · exact (c7_row_errors "abc" []).1 (by decide)
  · exact (c7_row_errors "c\tx\t.\tA\tG\t.\t.\t." []).2.1 (by decide) (by decide)
  · exact (c7_row_errors "c\t7\t.\tA\tG\t.\t.\t." []).2.2 (by decide) 7 (by decide)

/-! ## Claim C8 -/

/-- C8 (confirmed): for any filter text and row text the engine accepts, both
`FilterEngine::evaluate` and `FilterEngine::evaluate_parsed` return
`Ok(as_bool(v).unwrap_or(false))` for the evaluated value `v` — which is
`false` for every `String`, `Number` or `Array` result (regardless of
emptiness or being nonzero), the boolean itself for `Bool`, and `false` for
`Missing`; the general `value_to_bool` coercion of §4.4 is not applied at
this facade. -/
theorem c8_engine_coercion (m : InfoMap) (filt rowStr : String) (e : Expr)
    (r : VcfRow) (v : Value)
    (hf : parse_filter filt = some e)
    (hr : parse_row rowStr m = .ok r)
    (hv : evaluate e r m = .ok v) :
    FilterEngine.evaluate { info_map := m } filt rowStr =
      .ok ((v.as_bool).getD false) ∧
    FilterEngine.evaluate_parsed { info_map := m } e r =
      .ok ((v.as_bool).getD false) ∧
    (∀ t, v = .string t → (v.as_bool).getD false = false) ∧
    (∀ q, v = .number q → (v.as_bool).getD false = false) ∧
    (∀ a, v = .array a → (v.as_bool).getD false = false) ∧
    (∀ b, v = .bool b → (v.as_bool).getD false = b) ∧
    (v = .missing → (v.as_bool).getD false = false) := by
  refine ⟨?_, ?_, ?_, ?_, ?_, ?_, ?_⟩
  · simp only [FilterEngine.evaluate, parseRowStr, evaluateExpr, hr, hf,
      exceptBind_ok, hv]
  · simp only [FilterEngine.evaluate_parsed, evaluateExpr, hv, exceptBind_ok]
  · rintro t rfl; rfl
  · rintro q rfl; rfl
  · rintro a rfl; rfl
  · rintro b rfl; rfl
  · rintro rfl; rfl

/-- C8 witness: the theorem applied to the filter `QUAL` (which evaluates to
the `Number` 50, not a boolean) on a concrete row — the engine returns
`Ok(false)`. -/
theorem c8_witness :
    FilterEngine.evaluate { info_map := [] } "QUAL"
      "chr1\t100\t.\tA\tG\t50\tPASS\t." = .ok false ∧
    (Value.number 50).as_bool.getD false = false := by
  have h := c8_engine_coercion [] "QUAL" "chr1\t100\t.\tA\tG\t50\tPASS\t."
    (.var [.field "QUAL"])
    { chrom := "chr1", pos := 100, id := none, ref_allele := "A",
      alt_alleles := ["G"], qual := some 50, filter := ["PASS"],
      info := [], format := [] }
    (.number 50) (by with_unfolding_all rfl) (by with_unfolding_all rfl)
    (by with_unfolding_all rfl)
  exact ⟨h.1, (h.2.2.2.1 50 rfl)⟩

/-! ## Claim C9 -/

/-- Folding FORMAT/sample pairs over an accumulator whose values are all
`String`-or-`Missing` keeps every looked-up value `String`-or-`Missing`. -/
theorem format_fold_values (pairs : List (String × String)) :
    ∀ (acc : List (String × Value)),
      (∀ k v, lookupFirst acc k = some v → (∃ t, v = .string t) ∨ v = .missing) →
      ∀ k v,
        lookupFirst (pairs.foldl
          (fun result kv =>
            let val := if kv.2 = "." then Value.missing else Value.string kv.2
            (kv.1, val) :: result) acc) k = some v →
        (∃ t, v = .string t) ∨ v = .missing := by
  induction pairs with
  | nil => intro acc hacc; exact hacc
  | cons kv rest ih =>
    intro acc hacc k v hv
    simp only [List.foldl_cons] at hv
    refine ih _ ?_ k v hv
    intro k' v' hv'
    simp only [lookupFirst] at hv'
    split at hv'
    · cases hv'
      split
      · exact Or.inr rfl
      · exact Or.inl ⟨_, rfl⟩
    · exact hacc k' v' hv'

/-- Every binding produced by `parse_format_columns` is a `String` or
`Missing`. -/
theorem parse_format_columns_values (format_str sample_str : String)
    (k : String) (v : Value)
    (hv : lookupFirst (parse_format_columns format_str sample_str) k = some v) :
    (∃ t, v = .string t) ∨ v = .missing := by
  unfold parse_format_columns at hv
  exact format_fold_values _ [] (fun _ _ h => by cases h) k v hv

/-- C9 (confirmed): for every decoded row, every value stored in the FORMAT
map is a `String` or `Missing` — never a `Number`, `Bool` or `Array` — so a
numeric comparison on a FORMAT-resolved field can only go through
`as_number`'s string-to-number coercion. -/
theorem c9_format_values (s : String) (m : InfoMap) (r : VcfRow)
    (hr : parse_row s m = .ok r) (k : String) (v : Value)
    (hv : lookupFirst r.format k = some v) :
    ((∃ t, v = .string t) ∨ v = .missing) ∧
    (∀ q, v ≠ .number q) ∧ (∀ b, v ≠ .bool b) ∧ (∀ a, v ≠ .array a) := by
  have hform : r.format = [] ∨
      ∃ fs ss, r.format = parse_format_columns fs ss := by
    simp only [parse_row] at hr
    split at hr
    · cases hr
    · split at hr
      · cases hr
      · cases hr
        simp only
        split
        · exact Or.inr ⟨_, _, rfl⟩
        · exact Or.inl rfl
  have hsm : (∃ t, v = .string t) ∨ v = .missing := by
    rcases hform with hnil | ⟨fs, ss, hcols⟩
    · rw [hnil] at hv
      cases hv
    · rw [hcols] at hv
      exact parse_format_columns_values fs ss k v hv
  refine ⟨hsm, ?_, ?_, ?_⟩ <;>
    rcases hsm with ⟨t, rfl⟩ | rfl <;> intro x h <;> cases h

/-- C9 witness: the theorem applied to a row whose sample column holds a
numeric-looking text and a `.`; both decode to `String`/`Missing`. -/
theorem c9_witness :
    ∃ r, parse_row "c\t7\t.\tA\tG\t.\t.\t.\tGT:DP\t0/1:15" [] = .ok r ∧
      lookupFirst r.format "DP" = some (.string "15") ∧
      ((∃ t, Value.string "15" = Value.string t) ∨
        Value.string "15" = Value.missing) ∧
      (∀ q, Value.string "15" ≠ Value.number q) := by
  refine ⟨_, by with_unfolding_all rfl, by with_unfolding_all rfl, ?_, ?_⟩
  · have h := c9_format_values "c\t7\t.\tA\tG\t.\t.\t.\tGT:DP\t0/1:15" []
      _ (by with_unfolding_all rfl) "DP" (.string "15")
      (by with_unfolding_all rfl)
    exact h.1
  · have h := c9_format_values "c\t7\t.\tA\tG\t.\t.\t.\tGT:DP\t0/1:15" []
      _ (by with_unfolding_all rfl) "DP" (.string "15")
      (by with_unfolding_all rfl)
    exact h.2.1

/-! ## Claim C10 -/

/-- The access-part scan: absent part kinds leave the corresponding slot of
the initial state untouched. -/
theorem scanParts_preserve (parts : List AccessPart) :
    ∀ (st : Option Nat × Bool × Option String),
      ((∀ i, AccessPart.index i ∉ parts) →
        (parts.foldl
          (fun st p =>
            match p with
            | .index i => (some i, st.2.1, st.2.2)
            | .wildcard => (st.1, true, st.2.2)
            | .field n => (st.1, st.2.1, some n)) st).1 = st.1) ∧
      (AccessPart.wildcard ∉ parts →
        (parts.foldl
          (fun st p =>
            match p with
            | .index i => (some i, st.2.1, st.2.2)
            | .wildcard => (st.1, true, st.2.2)
            | .field n => (st.1, st.2.1, some n)) st).2.1 = st.2.1) ∧
      ((∀ n, AccessPart.field n ∉ parts) →
        (parts.foldl
          (fun st p =>
            match p with
            | .index i => (some i, st.2.1, st.2.2)
            | .wildcard => (st.1, true, st.2.2)
            | .field n => (st.1, st.2.1, some n)) st).2.2 = st.2.2) := by
  induction parts with
  | nil => intro st; exact ⟨fun _ => rfl, fun _ => rfl, fun _ => rfl⟩
  | cons p rest ih =>
    intro st
    refine ⟨?_, ?_, ?_⟩
    · intro h
      have hrest : ∀ i, AccessPart.index i ∉ rest := by
        intro i hmem
        exact h i (List.mem_cons_of_mem p hmem)
      rw [List.foldl_cons, (ih _).1 hrest]
      cases p with
      | index i => exact absurd (List.mem_cons_self _ _) (h i)
      | wildcard => rfl
      | field n => rfl
    · intro h
      have hrest : AccessPart.wildcard ∉ rest :=
        fun hmem => h (List.mem_cons_of_mem p hmem)
      rw [List.foldl_cons, (ih _).2.1 hrest]
      cases p with
      | index i => rfl
      | wildcard => exact absurd (List.mem_cons_self _ _) h
      | field n => rfl
    · intro h
      have hrest : ∀ n, AccessPart.field n ∉ rest := by
        intro n hmem
        exact h n (List.mem_cons_of_mem p hmem)
      rw [List.foldl_cons, (ih _).2.2 hrest]
      cases p with
      | index i => rfl
      | wildcard => rfl
      | field n => exact absurd (List.mem_cons_self _ _) (h n)

/-- When the parts contain a field name, the scan ends with some subfield
name. -/
theorem scanParts_field_some (parts : List AccessPart) :
    ∀ (st : Option Nat × Bool × Option String),
      (∃ n, AccessPart.field n ∈ parts) →
      ∃ n, (parts.foldl
        (fun st p =>
          match p with
          | .index i => (some i, st.2.1, st.2.2)
          | .wildcard => (st.1, true, st.2.2)
          | .field n => (st.1, st.2.1, some n)) st).2.2 = some n := by
  induction parts with
  | nil => rintro st ⟨n, hn⟩; cases hn
  | cons p rest ih =>
    rintro st ⟨n, hn⟩
    rw [List.mem_cons] at hn
    by_cases hrest : ∃ n', AccessPart.field n' ∈ rest
    · rw [List.foldl_cons]
      exact ih _ hrest
    · have hnone : ∀ n', AccessPart.field n' ∉ rest := by
        intro n' hmem
        exact hrest ⟨n', hmem⟩
      rcases hn with hn | hn
      · subst hn
        rw [List.foldl_cons, (scanParts_preserve rest _).2.2 hnone]
        exact ⟨n, rfl⟩
      · exact absurd hn (hnone n)

/-- C10 counterexample: the claim says any path containing a wildcard but no
trailing subfield name resolves to `Missing`; but `X[*][0]` (wildcard plus
index, no subfield) on an array-valued base resolves to the indexed element,
not `Missing`. -/
theorem c10_counterexample :
    resolve_with_base none "X" [.wildcard, .index 0] sampleRow [] =
      .string "a" ∧
    Value.string "a" ≠ Value.missing :=
  ⟨rfl, fun h => Value.noConfusion h⟩

/-- C10 (amended): a non-empty trailing access path containing a wildcard but
neither an index nor a trailing subfield name resolves to `Missing`; and a
path containing a subfield name but neither an index nor a wildcard resolves
to `Missing` (under any namespace and any base field). -/
theorem c10_path_missing (ns : Option String) (field : String)
    (parts : List AccessPart) (row : VcfRow) (m : InfoMap) :
    (parts ≠ [] → (∀ i, AccessPart.index i ∉ parts) →
      (∀ n, AccessPart.field n ∉ parts) →
      resolve_with_base ns field parts row m = .missing) ∧
    ((∃ n, AccessPart.field n ∈ parts) → (∀ i, AccessPart.index i ∉ parts) →
      AccessPart.wildcard ∉ parts →
      resolve_with_base ns field parts row m = .missing) := by
  constructor
  · intro hne hidx hfld
    cases parts with
    | nil => exact absurd rfl hne
    | cons p rest =>
      simp only [resolve_with_base, scanParts]
      rw [(scanParts_preserve (p :: rest) (none, false, none)).1 hidx,
        (scanParts_preserve (p :: rest) (none, false, none)).2.2 hfld]
  · intro hfld hidx hwc
    obtain ⟨n, hsome⟩ := scanParts_field_some parts (none, false, none) hfld
    cases parts with
    | nil =>
      obtain ⟨n', hn'⟩ := hfld
      cases hn'
    | cons p rest =>
      simp only [resolve_with_base, scanParts]
      rw [hsome,
        (scanParts_preserve (p :: rest) (none, false, none)).1 hidx,
        (scanParts_preserve (p :: rest) (none, false, none)).2.1 hwc]
      dsimp only
      by_cases hns : ns = some "FORMAT"
      · rw [if_pos hns]
      · rw [if_neg hns]
        simp

/-- C10 witness: the amended theorem applied to the paths `X[*]` (wildcard
only) and `X.Sub` (subfield only) on the sample row, whose `X` is an
array. -/
theorem c10_witness :
    resolve_with_base none "X" [.wildcard] sampleRow [] = .missing ∧
    resolve_with_base none "X" [.field "Sub"] sampleRow [] = .missing := by
  constructor
  · exact (c10_path_missing none "X" [.wildcard] sampleRow []).1
      (by simp) (by intro i h; simp at h) (by intro n h; simp at h)
  · exact (c10_path_missing none "X" [.field "Sub"] sampleRow []).2
      ⟨"Sub", by simp⟩ (by intro i h; simp at h) (by simp)
